import Mathlib

/-!
# Developer Inspiration Assistant — verification of the award pipeline

Shallow embedding of the award-aware retrieval-and-filtering pipeline of the
`developer_inspiration_assistant` repository.  Strings are modelled as lists
of characters (`Str`); the Python string/regex operations the pipeline uses
(lower-casing, whitespace collapsing, word-boundary substitution, substring
tests, splitting) are translated into executable Lean functions.  The
source files embedded here are `count_all_awards.py`, `ingest.py`,
`assistant.py` and `app.py`.
-/

/-- Strings are lists of characters. -/
abbrev Str := List Char

/-- The character list of a Lean string literal. -/
def str (s : String) : Str := s.data

/-- The whitespace class of Python's `str.strip`, `str.split()` and the
regex class `\s` (ASCII part): space, tab, newline, carriage return,
form feed, vertical tab. -/
def isPySpace (c : Char) : Bool :=
  c = ' ' || c = '\t' || c = '\n' || c = '\r' || c = '\x0c' || c = '\x0b'

/-- A word character in the sense of the regex class `\w` (ASCII part),
used by the word-boundary assertion `\b`: letters, digits, underscore. -/
def isWordChar (c : Char) : Bool :=
  ('a' ≤ c && c ≤ 'z') || ('A' ≤ c && c ≤ 'Z') || ('0' ≤ c && c ≤ '9') || c = '_'

/-- The apostrophe character (code 39). -/
def apos : Char := Char.ofNat 39

/-- The backtick character (code 96). -/
def btick : Char := Char.ofNat 96

/-- The double-quote character (code 34). -/
def dquote : Char := Char.ofNat 34

/-- Python `s.lower()` (ASCII). -/
def lowerStr (s : Str) : Str := s.map Char.toLower

/-- Python `s.strip()`: remove leading and trailing whitespace. -/
def stripEnds (s : Str) : Str :=
  ((s.dropWhile isPySpace).reverse.dropWhile isPySpace).reverse

/-- `re.sub(r"\s+", " ", s)`: replace every maximal whitespace run by a
single space.  The flag records whether the previous character was
whitespace (i.e. whether we are inside a run). -/
def collapseGo : Bool → Str → Str
  | _, [] => []
  | inRun, c :: t =>
    if isPySpace c then
      if inRun then collapseGo true t else ' ' :: collapseGo true t
    else c :: collapseGo false t

/-- `re.sub(r"\s+", " ", s)` on a whole string. -/
def collapseWs (s : Str) : Str := collapseGo false s

/-- `re.sub(r"['`]+", "", s)`: delete every apostrophe and backtick. -/
def stripQuotes (s : Str) : Str :=
  s.filter (fun c => !(c = apos || c = btick))

/-- `hay` contains `needle` as a contiguous substring — Python's
`needle in hay`.  (The empty needle is contained in everything, as in
Python.) -/
def listContains (hay needle : Str) : Bool :=
  match hay with
  | [] => needle.isEmpty
  | _ :: t => needle.isPrefixOf hay || listContains t needle

/-- Does the word `w` occur at the head of `s`, with regex word boundaries
`\b` on both sides?  `prev` is the character immediately before this
position (`none` at the start of the string).  All words used in the
pipeline begin and end with word characters, so the boundary holds exactly
when the neighbouring character is absent or not a word character. -/
def matchWordAt (w : Str) (prev : Option Char) (s : Str) : Bool :=
  (match prev with | none => true | some c => !isWordChar c) &&
  w.isPrefixOf s &&
  (match s.drop w.length with | [] => true | c :: _ => !isWordChar c)

/-- `re.search(r"\b(w₁|w₂|…)\b", s) is not None`: scan every position of
`s` for a `\b`-bounded occurrence of one of the words `ws`. -/
def existsWordMatch (ws : List Str) : Option Char → Str → Bool
  | _, [] => false
  | prev, c :: t => ws.any (fun w => matchWordAt w prev (c :: t)) || existsWordMatch ws (some c) t

/-- One left-to-right pass of `re.sub(r"\b(w₁|w₂|…)\b", "", s)`: at each
position try the alternatives in order; on a match delete it and resume
scanning after it (the boundary context is taken from the original string,
so `prev` becomes the last character of the deleted word).  `fuel` bounds
the recursion; `subDelete` supplies `s.length`, which suffices because each
step consumes at least one character. -/
def subDeleteGo (ws : List Str) : Nat → Option Char → Str → Str
  | 0, _, s => s
  | _ + 1, _, [] => []
  | fuel + 1, prev, c :: t =>
    match ws.find? (fun w => !w.isEmpty && matchWordAt w prev (c :: t)) with
    | some w => subDeleteGo ws fuel w.getLast? (t.drop (w.length - 1))
    | none => c :: subDeleteGo ws fuel (some c) t

/-- `re.sub(r"\b(w₁|w₂|…)\b", "", s)`. -/
def subDelete (ws : List Str) (s : Str) : Str := subDeleteGo ws s.length none s

/-- Python `s.split()`: split on whitespace runs, dropping empty tokens.
`acc` holds the characters of the token currently being read, reversed. -/
def splitTokensGo : Str → Str → List Str
  | acc, [] => if acc.isEmpty then [] else [acc.reverse]
  | acc, c :: t =>
    if isPySpace c then
      if acc.isEmpty then splitTokensGo [] t else acc.reverse :: splitTokensGo [] t
    else splitTokensGo (c :: acc) t

/-- Python `s.split()`. -/
def splitTokens (s : Str) : List Str := splitTokensGo [] s

/-! ## `count_all_awards.py` — `normalize_award` and `extract_awards` -/

/-- The filler tokens removed by
`re.sub(r"\b(at the|for|in|with)\b", "", award)` in `normalize_award`
(`count_all_awards.py`), in the regex's alternation order. -/
def fillerWords : List Str := [str "at the", str "for", str "in", str "with"]

/-- The stop terms of the rejection test
`re.search(r"\b(it|this|because|from|classification|usecases|trending|topics|way)\b", award)`
in `normalize_award` (`count_all_awards.py`). -/
def stopTerms : List Str :=
  [str "it", str "this", str "because", str "from", str "classification",
   str "usecases", str "trending", str "topics", str "way"]

/-- The transformation pipeline of `normalize_award` (`count_all_awards.py`
lines 8–13): `award.strip().lower()`, collapse whitespace, delete
apostrophes/backticks, delete filler tokens, strip again. -/
def normTransform (s : Str) : Str :=
  stripEnds (subDelete fillerWords (stripQuotes (collapseWs (lowerStr (stripEnds s)))))

/-- The rejection test of `normalize_award` (`count_all_awards.py` lines
15–19): length `< 5`, a `\b`-bounded stop term, a digit, or more than 5
whitespace-separated tokens. -/
def rejectAward (a : Str) : Bool :=
  decide (a.length < 5) || existsWordMatch stopTerms none a ||
    a.any Char.isDigit || decide (5 < (splitTokens a).length)

/-- `normalize_award` (`count_all_awards.py` lines 5–20).  `if not award`
is Python falsiness of a string: the empty string (or `None`) yields
`None`. -/
def normalize_award (award : Str) : Option Str :=
  if award.isEmpty then none
  else
    let a := normTransform award
    if rejectAward a then none else some a

/-- The canonical award vocabulary `valid_keywords` of `extract_awards`
(`count_all_awards.py` lines 25–29). -/
def valid_keywords : List Str :=
  [str "best overall project", str "most innovative project",
   str "most promising innovation", str "best technical implementation",
   str "distinguished technical deep-dive", str "the imagenet competition in 2012",
   str "innovative approach", str "outstanding contribution"]

/-- The vocabulary-membership test of `extract_awards`
(`count_all_awards.py`): `any(vk in norm_award or norm_award in vk for vk
in valid_keywords)` — substring containment in either direction. -/
def vocabOK (a : Str) : Bool :=
  valid_keywords.any (fun vk => listContains a vk || listContains vk a)

/-- Normalize one raw item and keep it only if it passes the vocabulary
test — the accept step applied uniformly to structured tag-list entries
and to regex captures in `extract_awards` (`count_all_awards.py`). -/
def acceptAward (it : Str) : Option Str :=
  (normalize_award it).bind (fun na => if vocabOK na then some na else none)

/-- `extract_awards` (`count_all_awards.py` lines 22–63).  `json_awards`
are the structured tag-list entries; `captures` is the concatenation, in
pattern order, of the capture groups produced by `re.findall` for the five
cue-phrase patterns on the description (the regex engine itself is not
re-implemented; the function is parametrised by its output).  The Python
function returns `list(set(extracted))`, whose order is unspecified;
deduplication is modelled by `List.dedup`, which has the same members. -/
def extract_awards (json_awards captures : List Str) : List Str :=
  (json_awards.filterMap acceptAward ++ captures.filterMap acceptAward).dedup

/-! ## `ingest.py` — `normalize_award`, `extract_awards`, metadata -/

/-- `normalize_award` (`ingest.py` lines 19–25): strip, lower, collapse
whitespace; no apostrophe stripping, no filler removal, and no rejection
filter — only falsy (empty) input yields `None`. -/
def ingestNormalize (award : Str) : Option Str :=
  if award.isEmpty then none
  else some (collapseWs (lowerStr (stripEnds award)))

/-- `extract_awards` (`ingest.py` lines 27–60).  `captures` is the
concatenation of the capture groups of the four `re.findall` cue-phrase
patterns on the description.  Every successfully normalized capture is
appended — there is no vocabulary test; the two key awards are appended
whenever they occur literally in the lower-cased description; `None`/empty
entries are dropped and the result deduplicated (`list(set(...))`). -/
def ingest_extract_awards (desc : Str) (json_awards captures : List Str) : List Str :=
  if desc.isEmpty then json_awards
  else
    let awards := json_awards ++ captures.filterMap ingestNormalize
    let awards := if listContains (lowerStr desc) (str "best overall project") then
        awards ++ [str "best overall project"] else awards
    let awards := if listContains (lowerStr desc) (str "most innovative project") then
        awards ++ [str "most innovative project"] else awards
    (awards.filter (fun a => !a.isEmpty)).dedup

/-! ## `assistant.py` / `app.py` — the Award Matcher and Deduplicator -/

/-- A retrieved chunk: publication id and title, the `awards` metadata
field (`doc.metadata.get("awards", "none")` — `none` models an absent
key), and the chunk text (`doc.page_content`). -/
structure Doc where
  id : Str
  title : Str
  awardsMeta : Option Str
  content : Str
deriving DecidableEq

/-- `doc.metadata.get("awards", "none").lower()`. -/
def awardsField (d : Doc) : Str := lowerStr (d.awardsMeta.getD (str "none"))

/-- Python `s.split(" | ")` — split on the literal pipe separator,
left-to-right, keeping empty pieces.  `acc` is the reversed current
piece. -/
def splitPipeGo : Str → Str → List Str
  | acc, [] => [acc.reverse]
  | acc, ' ' :: '|' :: ' ' :: t => acc.reverse :: splitPipeGo [] t
  | acc, c :: t => splitPipeGo (c :: acc) t

/-- Python `awards_str.split(" | ")`. -/
def splitPipe (s : Str) : List Str := splitPipeGo [] s

/-- The exact tier of the Award Matcher (`assistant.py` lines 105–106,
`app.py` lines 103–105): the normalized target award is a substring of the
lower-cased awards metadata or of the lower-cased chunk text. -/
def exactTier (award : Str) (d : Doc) : Bool :=
  listContains (awardsField d) award || listContains (lowerStr d.content) award

/-- The fuzzy tier of the Award Matcher (`assistant.py` lines 107–112,
`app.py` lines 107–116): split the awards metadata on `" | "` and accept
when some individual name has similarity ratio strictly above the
threshold.  The similarity backend is a parameter: `fuzz.ratio` yields
integers on a 0–100 scale with threshold 70, the `difflib` fallback yields
ratios in `[0,1]` with threshold `0.7`; both are rationals and both are
compared with a strict `>`. -/
def fuzzyTier (ratio : Str → Str → ℚ) (T : ℚ) (award : Str) (d : Doc) : Bool :=
  (splitPipe (awardsField d)).any (fun a => decide (T < ratio award (lowerStr a)))

/-- The per-candidate acceptance test of the Award Matcher, with the
source's control flow (`assistant.py` lines 103–114): the exact substring
test first, and only when it fails the fuzzy comparison over the split
awards metadata. -/
def matchesDoc (ratio : Str → Str → ℚ) (T : ℚ) (award : Str) (d : Doc) : Bool :=
  if listContains (awardsField d) award || listContains (lowerStr d.content) award then true
  else (splitPipe (awardsField d)).any (fun a => decide (T < ratio award (lowerStr a)))

/-- The deduplication scan of `ask_assistant` (`assistant.py` lines
117–122, `app.py` lines 119–125): keep a document when its id has not been
seen, record the id, drop later occurrences.  `seen` models the Python
`set` (membership only). -/
def dedupDocs (seen : List Str) : List Doc → List Doc
  | [] => []
  | d :: t => if seen.contains d.id then dedupDocs seen t
              else d :: dedupDocs (d.id :: seen) t

/-- `unique[:N]` after the deduplication scan (`docs = unique[:5]` in both
sources; the cap is the literal 5 there, modelled as a parameter `N`). -/
def capDocs (N : Nat) (docs : List Doc) : List Doc := (dedupDocs [] docs).take N

/-! ## `assistant.py` / `app.py` — the `ask_assistant` pipeline -/

/-- The external collaborators of `ask_assistant` and the fuzzy backend:
`retrieve` is `retriever.invoke` (may raise), `generate` is
`rag_chain.invoke` on a context and a question (may raise); raising is
modelled by `Except Str`. -/
structure Pipeline where
  retrieve : Str → Except Str (List Doc)
  generate : Str → Str → Except Str Str
  ratio : Str → Str → ℚ
  T : ℚ

/-- One context section per surviving chunk (`assistant.py` line 126):
`Title: …\nID: …\nAwards: …\nContent: …`. -/
def formatDoc (d : Doc) : Str :=
  str "Title: " ++ d.title ++ str "\nID: " ++ d.id ++ str "\nAwards: " ++
    d.awardsMeta.getD (str "none") ++ str "\nContent: " ++ d.content

/-- `"\n".join(...)` over the formatted sections (`assistant.py` line 126). -/
def buildContext (docs : List Doc) : Str :=
  List.intercalate (str "\n") (docs.map formatDoc)

/-- The body of the `try:` block of `ask_assistant` (`assistant.py` lines
87–152): normalize the award (`award.strip().lower() if award else None`,
where an empty normalized award is falsy and takes the no-award branch),
retrieve with the award text (or the raw query), filter with the two-tier
matcher in the award branch, deduplicate by id, cap at 5, build the
context and generate the answer. -/
def askBody (p : Pipeline) (query : Str) (award : Option Str) : Except Str Str :=
  let an : Str := (award.map (fun a => lowerStr (stripEnds a))).getD []
  if an.isEmpty then
    (p.retrieve query).bind (fun docs =>
      p.generate (buildContext (capDocs 5 docs)) query)
  else
    (p.retrieve an).bind (fun docs =>
      p.generate (buildContext (capDocs 5 (docs.filter (matchesDoc p.ratio p.T an)))) query)

/-- The error-string prefix of the `except` clause (`assistant.py` line
155). -/
def errPrefix : Str := str "⚠️ Error while generating response: "

/-- `ask_assistant` (`assistant.py` lines 85–155): the whole body runs
inside `try: … except Exception as e: return f"⚠️ Error while generating
response: {e}"`, so every outcome is an ordinary string. -/
def ask_assistant (p : Pipeline) (query : Str) (award : Option Str) : Str :=
  match askBody p query award with
  | .ok s => s
  | .error e => errPrefix ++ e

/-! ## Award-query parsing (`app.py` lines 204–217, `assistant.py` lines 167–177) -/

/-- Is the character one of the regex class `['\"]`? -/
def isQuote (c : Char) : Bool := c = apos || c = dquote

/-- Attempt the regex `tag\s*['\"]([^'\"]+)['\"]` (IGNORECASE) anchored at
the head of `s` (`app.py` line 209): literal `tag` in any case, optional
whitespace, an opening quote of either kind, a nonempty maximal run of
non-quote characters as the capture, then a closing quote of either
kind. -/
def tryTagAt (s : Str) : Option Str :=
  if (s.take 3).map Char.toLower = str "tag" then
    match (s.drop 3).dropWhile isPySpace with
    | q :: r =>
      if isQuote q then
        let cap := r.takeWhile (fun c => !isQuote c)
        if cap.isEmpty then none
        else
          match r.drop cap.length with
          | q2 :: _ => if isQuote q2 then some cap else none
          | [] => none
      else none
    | [] => none
  else none

/-- `re.search(r"tag\s*['\"]([^'\"]+)['\"]", input, re.IGNORECASE)`:
leftmost match wins (`app.py` line 209). -/
def findTagQuoted : Str → Option Str
  | [] => none
  | c :: t => match tryTagAt (c :: t) with
              | some a => some a
              | none => findTagQuoted t

/-- The award parsing of the Streamlit app (`app.py` lines 204–217): the
quoted-tag regex first; otherwise the shortcut phrases `"most innovative"`
and `"best overall"` on the lower-cased input. -/
def parseAwardApp (input : Str) : Option Str :=
  match findTagQuoted input with
  | some a => some a
  | none =>
    let lower := lowerStr input
    if listContains lower (str "most innovative") then some (str "most innovative project")
    else if listContains lower (str "best overall") then some (str "best overall project")
    else none

/-- Attempt the regex `tag\s+'([^']+)'` (IGNORECASE) anchored at the head
of `s` (`assistant.py` line 170): literal `tag`, at least one whitespace
character, a single quote, a nonempty maximal run of non-single-quote
characters, a closing single quote. -/
def tryTagSingleAt (s : Str) : Option Str :=
  if (s.take 3).map Char.toLower = str "tag" then
    let rest := s.drop 3
    if (rest.takeWhile isPySpace).isEmpty then none
    else
      match rest.dropWhile isPySpace with
      | q :: r =>
        if q = apos then
          let cap := r.takeWhile (fun c => !(c = apos))
          if cap.isEmpty then none
          else
            match r.drop cap.length with
            | q2 :: _ => if q2 = apos then some cap else none
            | [] => none
        else none
      | [] => none
  else none

/-- `re.search(r"tag\s+'([^']+)'", query, re.IGNORECASE)`: leftmost match. -/
def findTagSingle : Str → Option Str
  | [] => none
  | c :: t => match tryTagSingleAt (c :: t) with
              | some a => some a
              | none => findTagSingle t

/-- The award parsing of the CLI (`assistant.py` lines 167–177): when the
lower-cased query contains `"tag"`, only the single-quoted regex is tried
(and its capture lower-cased); otherwise the shortcuts require the full
phrases `"most innovative project(s)"` / `"best overall project(s)"`. -/
def parseAwardCli (query : Str) : Option Str :=
  let ql := lowerStr query
  if listContains ql (str "tag") then
    (findTagSingle query).map lowerStr
  else if listContains ql (str "most innovative project") ||
       listContains ql (str "most innovative projects") then
    some (str "most innovative project")
  else if listContains ql (str "best overall project") ||
       listContains ql (str "best overall projects") then
    some (str "best overall project")
  else none

/-! ## `ingest.py` — per-record metadata (lines 95–107) -/

/-- A publication record as `ingest.py` reads it: each `pub.get(k)` is an
`Option`, `none` standing for an absent key or a JSON `null`. -/
structure Publication where
  id : Option Str
  username : Option Str
  license : Option Str
  title : Option Str
deriving DecidableEq

/-- The chunk metadata built by `ingest.py` lines 100–107 (the constant
`source` field is omitted; `chunk` is added per chunk later). -/
structure Metadata where
  id : Option Str
  username : Option Str
  license : Option Str
  awards : Str
  title : Option Str
deriving DecidableEq

/-- `" | ".join(awards) if awards else "none"` (`ingest.py` line 98). -/
def awardsStrOf (awards : List Str) : Str :=
  if awards.isEmpty then str "none" else List.intercalate (str " | ") awards

/-- The metadata dictionary of `ingest.py` lines 100–107: every field of
the record is passed through unchanged (`pub.get(...)`); `extracted` is
the output of `extract_awards` for the record. -/
def buildMetadata (pub : Publication) (extracted : List Str) : Metadata :=
  { id := pub.id, username := pub.username, license := pub.license,
    awards := awardsStrOf extracted, title := pub.title }

/-! ## The Text Chunker

Modelled from the spec: the chunker itself is
`RecursiveCharacterTextSplitter(chunk_size=500, chunk_overlap=50)` of the
`langchain` library, invoked by `ingest.py` lines 88–93 and 117–123 but not
part of this repository's files.  Following §4.2 of the specification it is
modelled as a sliding window: each chunk holds `S` characters, consecutive
chunks overlap in `O` characters (stride `S − O`), the final chunk holds
whatever remains. -/

/-- One chunking step with explicit fuel; `chunkText` supplies `s.length`,
which suffices whenever `O < S` because each step consumes `S − O ≥ 1`
characters. -/
def chunkTextGo (S O : Nat) : Nat → Str → List Str
  | 0, s => [s]
  | fuel + 1, s =>
    if s.length ≤ S then [s]
    else s.take S :: chunkTextGo S O fuel (s.drop (S - O))

/-- Modelled from the spec (§4.2): split a text into chunks of `S`
characters in which consecutive chunks share `O` characters. -/
def chunkText (S O : Nat) (s : Str) : List Str := chunkTextGo S O s.length s

/-- Trim the leading `O` overlap characters of every chunk after the first
and concatenate — the reconstruction operation of §4.2/§8. -/
def trimJoin (O : Nat) : List Str → Str
  | [] => []
  | c :: rest => c ++ (rest.map (List.drop O)).flatten

/-! ## Theorems -/

/-- **C3** — For every candidate whose award-metadata field or text content
contains the normalized target award as a case-insensitive substring, the
Award Matcher accepts the candidate via the exact tier, for every fuzzy
backend and threshold (hence regardless of the fuzzy similarity ratio);
for candidates failing the exact tier, the acceptance is exactly the fuzzy
tier's verdict, i.e. the fuzzy tier decides only such candidates. -/
theorem C3_exact_tier_short_circuit :
    (∀ (ratio : Str → Str → ℚ) (T : ℚ) (award : Str) (d : Doc),
        exactTier award d = true → matchesDoc ratio T award d = true) ∧
    (∀ (ratio : Str → Str → ℚ) (T : ℚ) (award : Str) (d : Doc),
        exactTier award d = false → matchesDoc ratio T award d = fuzzyTier ratio T award d) := by
  constructor <;> intro ratio T award d h <;>
    unfold exactTier at h <;> simp [matchesDoc, fuzzyTier, h]

/-- **C3 witness** — a candidate whose award metadata literally contains
the target is accepted even under a constantly-zero similarity ratio. -/
theorem C3_exact_tier_short_circuit_witness :
    matchesDoc (fun _ _ => (0 : ℚ)) 70 (str "best overall project")
      ⟨str "p1", str "t", some (str "Best Overall Project"), str ""⟩ = true :=
  C3_exact_tier_short_circuit.1 (fun _ _ => (0 : ℚ)) 70 (str "best overall project")
    ⟨str "p1", str "t", some (str "Best Overall Project"), str ""⟩ (by decide)

/-- **C4** — For a candidate failing the exact tier, the Award Matcher
splits the award-metadata field on `" | "` and accepts exactly when some
individual name's similarity ratio with the target strictly exceeds the
threshold `T`; in particular a best ratio `≤ T` (so also one exactly equal
to `T`) is rejected.  The similarity backend is universally quantified, so
the same strict-threshold contract covers both `fuzz.ratio` (`> 70`) and
the `difflib` fallback (`> 0.7`). -/
theorem C4_fuzzy_strict_threshold (ratio : Str → Str → ℚ) (T : ℚ) (award : Str) (d : Doc)
    (h : exactTier award d = false) :
    (matchesDoc ratio T award d = true ↔
       ∃ a ∈ splitPipe (awardsField d), T < ratio award (lowerStr a)) ∧
    ((∀ a ∈ splitPipe (awardsField d), ratio award (lowerStr a) ≤ T) →
       matchesDoc ratio T award d = false) := by
  unfold exactTier at h
  have hm : matchesDoc ratio T award d
      = (splitPipe (awardsField d)).any (fun a => decide (T < ratio award (lowerStr a))) := by
    simp [matchesDoc, h]
  constructor
  · rw [hm]
    simp [List.any_eq_true]
  · intro hall
    rw [hm]
    simp only [List.any_eq_false, decide_eq_true_eq]
    intro a ha
    exact not_lt.mpr (hall a ha)

/-- **C4 witness** — with a backend returning ratio exactly 70 against
every name and threshold 70, a candidate failing the exact tier is
rejected. -/
theorem C4_fuzzy_strict_threshold_witness :
    matchesDoc (fun _ _ => (70 : ℚ)) 70 (str "zzz zzz")
      ⟨str "p1", str "t", some (str "none"), str "c"⟩ = false :=
  (C4_fuzzy_strict_threshold (fun _ _ => (70 : ℚ)) 70 (str "zzz zzz")
      ⟨str "p1", str "t", some (str "none"), str "c"⟩ (by decide)).2
    (fun a _ => le_refl (70 : ℚ))

/-- **C9 counterexample** — a publication record whose `title`, `username`
and `license` are all absent/null is indexed with `null` metadata values,
not with the documented defaults `"Untitled Project"` / `"anonymous"` /
`"unknown"`: `ingest.py` lines 100–107 pass `pub.get(...)` through
unchanged. -/
theorem C9_defaults_counterexample :
    (buildMetadata ⟨none, none, none, none⟩ []).title = none ∧
    (buildMetadata ⟨none, none, none, none⟩ []).username = none ∧
    (buildMetadata ⟨none, none, none, none⟩ []).license = none ∧
    (buildMetadata ⟨none, none, none, none⟩ []).title ≠ some (str "Untitled Project") ∧
    (buildMetadata ⟨none, none, none, none⟩ []).username ≠ some (str "anonymous") ∧
    (buildMetadata ⟨none, none, none, none⟩ []).license ≠ some (str "unknown") := by
  decide

/-- **C9 (amended)** — the loader applies no defaults: every chunk's
metadata carries the record's `id`, `username`, `license` and `title`
exactly as loaded (absent/null stays null); only the `awards` field is
defaulted, to the literal `"none"`, exactly when award extraction returned
nothing, and is the pipe-joined award list otherwise. -/
theorem C9_metadata_passthrough (pub : Publication) (extracted : List Str) :
    (buildMetadata pub extracted).title = pub.title ∧
    (buildMetadata pub extracted).username = pub.username ∧
    (buildMetadata pub extracted).license = pub.license ∧
    (buildMetadata pub extracted).id = pub.id ∧
    (extracted = [] → (buildMetadata pub extracted).awards = str "none") ∧
    (extracted ≠ [] →
      (buildMetadata pub extracted).awards = List.intercalate (str " | ") extracted) := by
  refine ⟨rfl, rfl, rfl, rfl, ?_, ?_⟩ <;> intro h <;>
    simp [buildMetadata, awardsStrOf, h]

/-- **C9 witness** — concrete instance of the amended claim: no extracted
awards yields the `"none"` awards field. -/
theorem C9_metadata_passthrough_witness :
    (buildMetadata ⟨some (str "p1"), none, none, none⟩ []).awards = str "none" :=
  (C9_metadata_passthrough ⟨some (str "p1"), none, none, none⟩ []).2.2.2.2.1 rfl

/-- **C10** — the public ask operation is total: for every query, optional
award, and behaviour of the fallible collaborators (retrieval and answer
generation), `ask_assistant` returns an ordinary string — the generated
answer when the body succeeds, and the error formatted behind the fixed
prefix when any stage fails. -/
theorem C10_ask_total (p : Pipeline) (query : Str) (award : Option Str) :
    (∃ s, askBody p query award = .ok s ∧ ask_assistant p query award = s) ∨
    (∃ e, askBody p query award = .error e ∧ ask_assistant p query award = errPrefix ++ e) := by
  match h : askBody p query award with
  | .ok s => exact .inl ⟨s, rfl, by unfold ask_assistant; rw [h]⟩
  | .error e => exact .inr ⟨e, rfl, by unfold ask_assistant; rw [h]⟩

/-- **C2 counterexample** — the repository's ingest-time variant of
award-name normalization (`ingest.py` lines 19–25) does not implement the
claimed rejection rules: on the two-character input `"ai"` it returns
`"ai"`, not null, although the normalized string has length `< 5`. -/
theorem C2_ingest_counterexample :
    ingestNormalize (str "ai") = some (str "ai") ∧ (str "ai").length < 5 ∧
    ingestNormalize (str "won in 2012") = some (str "won in 2012") := by
  decide

/-- **C2 (amended)** — for the full normalizer (`normalize_award` in
`count_all_awards.py`; `ingest.py`'s variant performs no rejection), the
result is null exactly when the transformed string has length `< 5`, or
more than 5 whitespace-separated tokens, or contains a digit, or contains
a word-boundary-delimited stop-term from
`{it, this, because, from, classification, usecases, trending, topics, way}`;
otherwise the result is exactly the lower-cased, whitespace-collapsed,
apostrophe/backtick-stripped, filler-token-deleted, trimmed string
(`normTransform`). -/
theorem C2_normalize_characterization (x : Str) :
    (normalize_award x = none ↔
      ((normTransform x).length < 5 ∨ 5 < (splitTokens (normTransform x)).length ∨
       (normTransform x).any Char.isDigit = true ∨
       existsWordMatch stopTerms none (normTransform x) = true)) ∧
    (∀ y, normalize_award x = some y → y = normTransform x) := by
  have hreject : rejectAward (normTransform x) = true ↔
      ((normTransform x).length < 5 ∨ 5 < (splitTokens (normTransform x)).length ∨
       (normTransform x).any Char.isDigit = true ∨
       existsWordMatch stopTerms none (normTransform x) = true) := by
    unfold rejectAward
    rw [Bool.or_eq_true, Bool.or_eq_true, Bool.or_eq_true, decide_eq_true_eq, decide_eq_true_eq]
    constructor
    · rintro (((h1 | h2) | h3) | h4)
      · exact Or.inl h1
      · exact Or.inr (Or.inr (Or.inr h2))
      · exact Or.inr (Or.inr (Or.inl h3))
      · exact Or.inr (Or.inl h4)
    · rintro (h1 | h2 | h3 | h4)
      · exact Or.inl (Or.inl (Or.inl h1))
      · exact Or.inr h2
      · exact Or.inl (Or.inr h3)
      · exact Or.inl (Or.inl (Or.inr h4))
  by_cases hx : x.isEmpty = true
  · have hxe : x = [] := by simpa [List.isEmpty_iff] using hx
    subst hxe
    refine ⟨⟨fun _ => Or.inl (by decide), fun _ => by simp [normalize_award]⟩,
            fun y hy => by simp [normalize_award] at hy⟩
  · by_cases hr : rejectAward (normTransform x) = true
    · refine ⟨⟨fun _ => hreject.mp hr, fun _ => by simp [normalize_award, hx, hr]⟩,
              fun y hy => ?_⟩
      simp [normalize_award, hx, hr] at hy
    · refine ⟨⟨fun hnone => ?_, fun hprop => absurd (hreject.mpr hprop) hr⟩, fun y hy => ?_⟩
      · simp [normalize_award, hx, hr] at hnone
      · have := by simpa [normalize_award, hx, hr] using hy
        exact this.symm

/-- **C2 witness** — concrete instances of the amended claim:
`normalize_award "ai"` is null (length), and on `"Best Overall Project"`
the some-case returns the transformed string. -/
theorem C2_normalize_characterization_witness :
    normalize_award (str "ai") = none ∧
    str "best overall project" = normTransform (str "Best Overall Project") :=
  ⟨(C2_normalize_characterization (str "ai")).1.mpr (Or.inl (by decide)),
   (C2_normalize_characterization (str "Best Overall Project")).2
     (str "best overall project") (by decide)⟩

/-- **C6 counterexample** — award-name normalization
(`count_all_awards.py`) is not idempotent: filler-token removal leaves a
double space, so `normalize("best for project") = "best  project"` while
`normalize("best  project") = "best project"`; hence
`normalize(normalize(x)) ≠ normalize(x)` at `x = "best for project"`. -/
theorem C6_idempotence_counterexample :
    normalize_award (str "best for project") = some (str "best  project") ∧
    normalize_award (str "best  project") = some (str "best project") ∧
    str "best  project" ≠ str "best project" ∧
    (normalize_award (str "best for project")).bind normalize_award ≠
      normalize_award (str "best for project") := by
  decide

/-- **C6 (amended)** — normalization is idempotent exactly on the inputs
whose normalized form is a fixed point of the transformation pipeline: if
`normalize_award x = some y` and `normTransform y = y`, then
`normalize_award y = some y`.  (Filler-token deletion can leave a
whitespace run in `y`, in which case a second normalization collapses it
and the equation fails, as the counterexample shows.) -/
theorem C6_idempotent_on_fixed_points (x y : Str) (h : normalize_award x = some y)
    (hfix : normTransform y = y) : normalize_award y = some y := by
  by_cases hx : x.isEmpty = true
  · simp [normalize_award, hx] at h
  · by_cases hr : rejectAward (normTransform x) = true
    · simp [normalize_award, hx, hr] at h
    · have hy : normTransform x = y := by simpa [normalize_award, hx, hr] using h
      have hry : ¬ rejectAward y = true := hy ▸ hr
      have hlen : ¬ y.length < 5 := by
        intro hl
        exact hry (by simp [rejectAward, hl])
      have hye : ¬ y.isEmpty = true := by
        intro hempty
        rw [List.isEmpty_iff] at hempty
        exact hlen (by simp [hempty])
      simp [normalize_award, hye, hfix, hry]

/-- **C6 witness** — `"Best Overall Project"` normalizes to
`"best overall project"`, which is a fixed point, so normalizing it again
returns it unchanged. -/
theorem C6_idempotent_on_fixed_points_witness :
    normalize_award (str "best overall project") = some (str "best overall project") :=
  C6_idempotent_on_fixed_points (str "Best Overall Project") (str "best overall project")
    (by decide) (by decide)

/-- The deduplication scan yields a sublist of its input (hence preserves
relative order). -/
theorem dedupDocs_sublist (docs : List Doc) : ∀ seen, (dedupDocs seen docs).Sublist docs := by
  induction docs with
  | nil => intro seen; simp [dedupDocs]
  | cons d t ih =>
    intro seen
    unfold dedupDocs
    split
    · exact (ih seen).trans (List.sublist_cons_self d t)
    · exact (ih (d.id :: seen)).cons₂ d

/-- The ids surviving the deduplication scan are pairwise distinct and
disjoint from the already-seen set. -/
theorem dedupDocs_nodup (docs : List Doc) :
    ∀ seen, ((dedupDocs seen docs).map Doc.id).Nodup ∧
      ∀ d ∈ dedupDocs seen docs, seen.contains d.id = false := by
  induction docs with
  | nil => intro seen; simp [dedupDocs]
  | cons d t ih =>
    intro seen
    unfold dedupDocs
    split
    · rename_i hc
      exact ⟨(ih seen).1, (ih seen).2⟩
    · rename_i hc
      have hns := ih (d.id :: seen)
      refine ⟨List.nodup_cons.mpr ⟨?_, hns.1⟩, ?_⟩
      · intro hmem
        obtain ⟨d', hd', hid⟩ := List.mem_map.mp hmem
        have := hns.2 d' hd'
        rw [List.contains_cons, hid] at this
        simp at this
      · intro d' hd'
        rcases List.mem_cons.mp hd' with rfl | hd'
        · simpa using hc
        · have := hns.2 d' hd'
          rw [List.contains_cons] at this
          simp only [Bool.or_eq_false_iff] at this
          exact this.2

/-- Every id of the input is represented in the deduplicated output
(when not already seen). -/
theorem dedupDocs_complete (docs : List Doc) :
    ∀ seen, ∀ d ∈ docs, seen.contains d.id = false →
      d.id ∈ (dedupDocs seen docs).map Doc.id := by
  induction docs with
  | nil => simp
  | cons a t ih =>
    intro seen d hd hseen
    unfold dedupDocs
    rcases List.mem_cons.mp hd with rfl | hd
    · split
      · rename_i hc; rw [hseen] at hc; cases hc
      · simp
    · split
      · exact ih seen d hd hseen
      · by_cases hid : d.id = a.id
        · simp [hid]
        · have hseen' : (a.id :: seen).contains d.id = false := by
            rw [List.contains_cons, hseen, Bool.or_false, beq_eq_false_iff_ne]
            exact hid
          simpa using Or.inr (ih (a.id :: seen) d hd hseen')

/-- **C5** — the Deduplicator keeps the first occurrence of each
publication id in scan order (the output is a sublist of the input, its
ids are pairwise distinct, and every input id is represented before
capping), returns at most `N` documents, and returns all unique-id
representatives when there are at most `N` of them; on candidates with ids
`[A,A,B,C,C,C,D,E,F]` and cap `N = 5` the output is exactly the first
occurrences of `A, B, C, D, E`. -/
theorem C5_dedup_cap :
    (∀ (N : Nat) (docs : List Doc),
       (capDocs N docs).length ≤ N ∧
       ((capDocs N docs).map Doc.id).Nodup ∧
       (capDocs N docs).Sublist docs ∧
       (∀ d ∈ docs, d.id ∈ (dedupDocs [] docs).map Doc.id) ∧
       ((dedupDocs [] docs).length ≤ N → capDocs N docs = dedupDocs [] docs)) ∧
    capDocs 5
      [⟨str "A", str "1", none, []⟩, ⟨str "A", str "2", none, []⟩,
       ⟨str "B", str "3", none, []⟩, ⟨str "C", str "4", none, []⟩,
       ⟨str "C", str "5", none, []⟩, ⟨str "C", str "6", none, []⟩,
       ⟨str "D", str "7", none, []⟩, ⟨str "E", str "8", none, []⟩,
       ⟨str "F", str "9", none, []⟩] =
      [⟨str "A", str "1", none, []⟩, ⟨str "B", str "3", none, []⟩,
       ⟨str "C", str "4", none, []⟩, ⟨str "D", str "7", none, []⟩,
       ⟨str "E", str "8", none, []⟩] := by
  constructor
  · intro N docs
    refine ⟨?_, ?_, ?_, ?_, ?_⟩
    · simp [capDocs, List.length_take_le]
    · have h1 : ((capDocs N docs).map Doc.id).Sublist ((dedupDocs [] docs).map Doc.id) :=
        (List.take_sublist N (dedupDocs [] docs)).map Doc.id
      exact (dedupDocs_nodup docs []).1.sublist h1
    · exact (List.take_sublist N (dedupDocs [] docs)).trans (dedupDocs_sublist docs [])
    · intro d hd
      exact dedupDocs_complete docs [] d hd rfl
    · intro hlen
      simpa [capDocs] using List.take_of_length_le hlen
  · decide

/-- **C1 counterexample** — the ingest-time extractor (`ingest.py`
`extract_awards`, the one that populates the index) performs no vocabulary
test: on the description `"won most popular tool"` the pattern
`won\s*([^\n.,;]+)` captures `"most popular tool"`, which is accepted into
the output although it stands in substring containment with no entry of
the canonical award vocabulary. -/
theorem C1_ingest_counterexample :
    (str "most popular tool") ∈
      ingest_extract_awards (str "won most popular tool") [] [str "most popular tool"] ∧
    vocabOK (str "most popular tool") = false ∧
    (str "most popular tool") ∉ valid_keywords := by
  decide

/-- **C1 (amended)** — the consolidated extractor (`extract_awards` in
`count_all_awards.py`) obeys the claim: its output is duplicate-free, and
an award belongs to it exactly when it is the normalized form of some
structured tag-list entry or cue-phrase capture and stands in substring
containment (in either direction) with an entry of the canonical award
vocabulary; the ingest-time extractor (`ingest.py`) accepts every
normalized capture without any vocabulary test. -/
theorem C1_extractor_vocabulary_gate (json_awards captures : List Str) :
    (extract_awards json_awards captures).Nodup ∧
    ∀ a, a ∈ extract_awards json_awards captures ↔
      ∃ it ∈ json_awards ++ captures, normalize_award it = some a ∧ vocabOK a = true := by
  constructor
  · exact List.nodup_dedup _
  · intro a
    unfold extract_awards
    rw [List.mem_dedup, ← List.filterMap_append, List.mem_filterMap]
    constructor
    · rintro ⟨it, hit, hacc⟩
      unfold acceptAward at hacc
      rw [Option.bind_eq_some] at hacc
      obtain ⟨na, hna, hif⟩ := hacc
      by_cases hv : vocabOK na = true
      · rw [if_pos hv] at hif
        cases hif
        exact ⟨it, hit, hna, hv⟩
      · rw [if_neg hv] at hif
        cases hif
    · rintro ⟨it, hit, hna, hv⟩
      refine ⟨it, hit, ?_⟩
      unfold acceptAward
      rw [hna]
      simp [hv]

/-- **C1 witness** — concrete instance of the amended claim: with the
single tag entry `"Best Overall Project"` and no captures, the canonical
normalized award is in the output. -/
theorem C1_extractor_vocabulary_gate_witness :
    (str "best overall project") ∈ extract_awards [str "Best Overall Project"] [] :=
  (C1_extractor_vocabulary_gate [str "Best Overall Project"] []).2
    (str "best overall project") |>.mpr
    ⟨str "Best Overall Project", by decide, by decide, by decide⟩

/-- Dropping while `p` holds skips a prefix on which `p` holds
everywhere. -/
theorem dropWhile_append_all (p : Char → Bool) (xs ys : Str)
    (h : ∀ x ∈ xs, p x = true) : (xs ++ ys).dropWhile p = ys.dropWhile p := by
  induction xs with
  | nil => rfl
  | cons c t ih =>
    rw [List.cons_append, List.dropWhile_cons, h c (by simp)]
    exact ih (fun x hx => h x (by simp [hx]))

/-- Taking while `p` holds captures exactly a prefix on which `p` holds
everywhere when the next character refutes `p`. -/
theorem takeWhile_append_stop (p : Char → Bool) (xs : Str) (y : Char) (ys : Str)
    (hall : ∀ x ∈ xs, p x = true) (hy : p y = false) :
    (xs ++ y :: ys).takeWhile p = xs := by
  induction xs with
  | nil => simp [List.takeWhile_cons, hy]
  | cons c t ih =>
    rw [List.cons_append, List.takeWhile_cons, hall c (by simp)]
    simp only [if_true]
    rw [ih (fun x hx => hall x (by simp [hx]))]

/-- The quoted-tag regex cannot match at a position whose character does
not lower-case to `t`. -/
theorem tryTagAt_head_ne (c : Char) (t : Str) (hc : Char.toLower c ≠ 't') :
    tryTagAt (c :: t) = none := by
  unfold tryTagAt
  rw [if_neg]
  intro h
  rw [show (c :: t).take 3 = c :: t.take 2 from rfl, List.map_cons,
      show str "tag" = 't' :: str "ag" from rfl] at h
  exact hc (List.head_eq_of_cons_eq h)

/-- Scanning for the quoted-tag regex skips any prefix containing no `t`
in either case. -/
theorem findTagQuoted_append (pre rest : Str)
    (hpre : ∀ c ∈ pre, Char.toLower c ≠ 't') :
    findTagQuoted (pre ++ rest) = findTagQuoted rest := by
  induction pre with
  | nil => rfl
  | cons c t ih =>
    rw [List.cons_append]
    simp only [findTagQuoted]
    rw [tryTagAt_head_ne c _ (hpre c (by simp))]
    exact ih (fun x hx => hpre x (by simp [hx]))

/-- The quoted-tag regex matches at a position spelling `tag`, optional
whitespace, a quote, a nonempty quote-free name, a closing quote. -/
theorem tryTagAt_eval (ws name post : Str) (q : Char) (hq : isQuote q = true)
    (hws : ∀ c ∈ ws, isPySpace c = true) (hn0 : name ≠ [])
    (hnq : ∀ c ∈ name, isQuote c = false) :
    tryTagAt (str "tag" ++ (ws ++ q :: (name ++ q :: post))) = some name := by
  have hq' : q = apos ∨ q = dquote := by
    simpa [isQuote] using hq
  have hqs : isPySpace q = false := by
    rcases hq' with rfl | rfl <;> decide
  have hstep1 : (str "tag" ++ (ws ++ q :: (name ++ q :: post))).take 3 = str "tag" := by
    rw [show (3 : Nat) = (str "tag").length from by decide, List.take_left]
  have hstep2 : (str "tag" ++ (ws ++ q :: (name ++ q :: post))).drop 3
      = ws ++ q :: (name ++ q :: post) := by
    rw [show (3 : Nat) = (str "tag").length from by decide, List.drop_left]
  have hstep3 : (ws ++ q :: (name ++ q :: post)).dropWhile isPySpace
      = q :: (name ++ q :: post) := by
    rw [dropWhile_append_all isPySpace ws _ hws, List.dropWhile_cons, hqs]
    simp
  have hcap : (name ++ q :: post).takeWhile (fun c => !isQuote c) = name :=
    takeWhile_append_stop _ name q post (fun x hx => by simp [hnq x hx]) (by simp [hq])
  have hdrop : (name ++ q :: post).drop name.length = q :: post :=
    List.drop_left name (q :: post)
  unfold tryTagAt
  rw [hstep1, if_pos (by decide), hstep2, hstep3]
  dsimp only
  rw [if_pos hq, hcap, hdrop]
  rw [if_neg (by simp [List.isEmpty_iff, hn0])]
  dsimp only
  rw [if_pos hq]

/-- **C8 counterexample** — the CLI parser (`assistant.py` lines 167–177)
accepts neither double-quoted tags (its regex is `tag\s+'([^']+)'`) nor
the bare phrase `"most innovative"`: on the input
`tag "best overall project"` it extracts no award at all, although the
claim says a double-quoted award name after the keyword `tag` is
extracted. -/
theorem C8_cli_counterexample :
    parseAwardCli (str "tag \"best overall project\"") = none ∧
    parseAwardCli (str "show me the most innovative ones") = none := by
  decide

/-- **C8 (amended)** — the Streamlit app's parser (`app.py` lines 204–217)
obeys the claim: any input containing the case-insensitive keyword `tag`,
optional whitespace, and an award name in double or single quotes (with no
earlier `t`/`T` that could start an earlier match) yields that quoted name
as the award filter; and any input on which the quoted-tag pattern fails
but which contains `"most innovative"` maps to the canonical award
`"most innovative project"`.  The CLI parser (`assistant.py`) accepts only
single-quoted names and only the full shortcut phrases. -/
theorem C8_app_award_parsing :
    (∀ (pre ws name post : Str) (q : Char),
        isQuote q = true → (∀ c ∈ pre, Char.toLower c ≠ 't') →
        (∀ c ∈ ws, isPySpace c = true) → name ≠ [] → (∀ c ∈ name, isQuote c = false) →
        parseAwardApp (pre ++ (str "tag" ++ (ws ++ q :: (name ++ q :: post)))) = some name) ∧
    (∀ input : Str, findTagQuoted input = none →
        listContains (lowerStr input) (str "most innovative") = true →
        parseAwardApp input = some (str "most innovative project")) := by
  constructor
  · intro pre ws name post q hq hpre hws hn0 hnq
    have hfind : findTagQuoted (pre ++ (str "tag" ++ (ws ++ q :: (name ++ q :: post))))
        = some name := by
      rw [findTagQuoted_append pre _ hpre]
      rw [show str "tag" ++ (ws ++ q :: (name ++ q :: post))
            = 't' :: (str "ag" ++ (ws ++ q :: (name ++ q :: post))) from rfl]
      simp only [findTagQuoted]
      rw [show 't' :: (str "ag" ++ (ws ++ q :: (name ++ q :: post)))
            = str "tag" ++ (ws ++ q :: (name ++ q :: post)) from rfl]
      rw [tryTagAt_eval ws name post q hq hws hn0 hnq]
    unfold parseAwardApp
    rw [hfind]
  · intro input hnone hcontains
    unfold parseAwardApp
    rw [hnone]
    simp only [hcontains, if_true]

/-- **C8 witness** — a concrete double-quoted tag query parsed by the app
parser, and a concrete `"most innovative"` shortcut input. -/
theorem C8_app_award_parsing_witness :
    parseAwardApp ([] ++ (str "tag" ++ ([' '] ++ dquote ::
        (str "best overall project" ++ dquote :: [])))) = some (str "best overall project") ∧
    parseAwardApp (str "show me the most innovative work") = some (str "most innovative project") :=
  ⟨C8_app_award_parsing.1 [] [' '] (str "best overall project") [] dquote (by decide)
      (by decide) (by decide) (by decide) (by decide),
   C8_app_award_parsing.2 (str "show me the most innovative work") (by decide) (by decide)⟩

/-- The chunk list is nonempty and its head is either the whole remaining
text (final chunk) or its first `S` characters. -/
theorem chunkTextGo_head (S O f : Nat) (s : Str) :
    ∃ h t, chunkTextGo S O f s = h :: t ∧ (h = s ∨ h = s.take S) := by
  cases f with
  | zero => exact ⟨s, [], rfl, Or.inl rfl⟩
  | succ f =>
    unfold chunkTextGo
    by_cases hl : s.length ≤ S
    · rw [if_pos hl]; exact ⟨s, [], rfl, Or.inl rfl⟩
    · rw [if_neg hl]; exact ⟨s.take S, _, rfl, Or.inr rfl⟩

/-- Trimming the leading `O` characters of every chunk after the first and
concatenating reproduces the text (for adequate fuel and `O < S`). -/
theorem chunkTextGo_reconstruct (S O : Nat) (hOS : O < S) :
    ∀ f s, s.length ≤ f → trimJoin O (chunkTextGo S O f s) = s := by
  intro f
  induction f with
  | zero =>
    intro s hs
    have hnil : s = [] := List.length_eq_zero.mp (Nat.le_zero.mp hs)
    subst hnil
    simp [chunkTextGo, trimJoin]
  | succ f ih =>
    intro s hs
    unfold chunkTextGo
    by_cases hl : s.length ≤ S
    · rw [if_pos hl]; simp [trimJoin]
    · rw [if_neg hl]
      push_neg at hl
      have hlen' : (s.drop (S - O)).length ≤ f := by
        rw [List.length_drop]; omega
      obtain ⟨h, t, hrec, hhead⟩ := chunkTextGo_head S O f (s.drop (S - O))
      have hIH := ih (s.drop (S - O)) hlen'
      rw [hrec] at hIH ⊢
      unfold trimJoin at hIH ⊢
      dsimp only at hIH ⊢
      rw [List.map_cons, List.flatten_cons]
      have hOh : O ≤ h.length := by
        have hsd : O < (s.drop (S - O)).length := by rw [List.length_drop]; omega
        rcases hhead with rfl | rfl
        · omega
        · rw [List.length_take]; omega
      rw [← List.drop_append_of_le_length hOh, hIH, List.drop_drop,
          show S - O + O = S from by omega, List.take_append_drop]

/-- Consecutive chunks: every non-final chunk has exactly `S` characters
and its last `O` characters are the next chunk's first `O` characters. -/
theorem chunkTextGo_consecutive (S O : Nat) (hOS : O < S) :
    ∀ f s, s.length ≤ f → ∀ i c c',
      (chunkTextGo S O f s)[i]? = some c → (chunkTextGo S O f s)[i+1]? = some c' →
      c.length = S ∧ c.drop (S - O) = c'.take O := by
  intro f
  induction f with
  | zero =>
    intro s hs i c c' _ hc'
    have hnil : s = [] := List.length_eq_zero.mp (Nat.le_zero.mp hs)
    subst hnil
    simp [chunkTextGo] at hc'
  | succ f ih =>
    intro s hs i c c' hc hc'
    unfold chunkTextGo at hc hc'
    by_cases hl : s.length ≤ S
    · rw [if_pos hl] at hc'
      simp at hc'
    · rw [if_neg hl] at hc hc'
      push_neg at hl
      have hlen' : (s.drop (S - O)).length ≤ f := by
        rw [List.length_drop]; omega
      cases i with
      | zero =>
        obtain rfl : List.take S s = c := by simpa using hc
        obtain ⟨h, t, hrec, hhead⟩ := chunkTextGo_head S O f (s.drop (S - O))
        obtain rfl : h = c' := by
          rw [List.getElem?_cons_succ, hrec] at hc'
          simpa using hc'
        constructor
        · rw [List.length_take]; omega
        · rw [List.drop_take, show S - (S - O) = O from by omega]
          rcases hhead with rfl | rfl
          · rfl
          · rw [List.take_take, show min O S = O from by omega]
      | succ i =>
        rw [List.getElem?_cons_succ] at hc hc'
        exact ih (s.drop (S - O)) hlen' i c c' hc hc'

/-- Every chunk holds at most `S` characters. -/
theorem chunkTextGo_size (S O : Nat) (hOS : O < S) :
    ∀ f s, s.length ≤ f → ∀ c ∈ chunkTextGo S O f s, c.length ≤ S := by
  intro f
  induction f with
  | zero =>
    intro s hs c hc
    have hnil : s = [] := List.length_eq_zero.mp (Nat.le_zero.mp hs)
    subst hnil
    simp [chunkTextGo] at hc
    simp [hc]
  | succ f ih =>
    intro s hs c hc
    unfold chunkTextGo at hc
    by_cases hl : s.length ≤ S
    · rw [if_pos hl] at hc
      simp at hc
      simpa [hc] using hl
    · rw [if_neg hl] at hc
      rcases List.mem_cons.mp hc with rfl | hc
      · simp [List.length_take]
      · exact ih (s.drop (S - O)) (by rw [List.length_drop]; omega) c hc

/-- **C7** (modelled from the spec: the chunker is langchain's
`RecursiveCharacterTextSplitter`, outside this repository) — for chunk
size `S` and overlap `O` with `0 < O < S`: trimming the overlaps and
concatenating the chunks in index order exactly reconstructs the source
text; every non-final chunk holds exactly `S` characters and shares
exactly `O` characters of trailing/leading context with its successor;
and every chunk (in particular the final one, which may be shorter) holds
at most `S` characters. -/
theorem C7_chunker_overlap_reconstruction (S O : Nat) (s : Str) (hO : 0 < O) (hOS : O < S) :
    trimJoin O (chunkText S O s) = s ∧
    (∀ i c c', (chunkText S O s)[i]? = some c → (chunkText S O s)[i+1]? = some c' →
        c.length = S ∧ c.drop (S - O) = c'.take O ∧ (c.drop (S - O)).length = O) ∧
    (∀ c ∈ chunkText S O s, c.length ≤ S) := by
  refine ⟨chunkTextGo_reconstruct S O hOS s.length s le_rfl, ?_,
          chunkTextGo_size S O hOS s.length s le_rfl⟩
  intro i c c' hc hc'
  obtain ⟨h1, h2⟩ := chunkTextGo_consecutive S O hOS s.length s le_rfl i c c' hc hc'
  refine ⟨h1, h2, ?_⟩
  rw [List.length_drop, h1]
  omega

/-- **C7 witness** — chunking `"abcdefghijk"` with `S = 5`, `O = 2`
reconstructs the text after trimming the overlaps. -/
theorem C7_chunker_overlap_reconstruction_witness :
    trimJoin 2 (chunkText 5 2 (str "abcdefghijk")) = str "abcdefghijk" ∧
    chunkText 5 2 (str "abcdefghijk") = [str "abcde", str "defgh", str "ghijk"] :=
  ⟨(C7_chunker_overlap_reconstruction 5 2 (str "abcdefghijk") (by decide) (by decide)).1,
   by decide⟩

/-- **C5 witness** — the cap and uniqueness invariants at the concrete
nine-candidate example. -/
theorem C5_dedup_cap_witness :
    (capDocs 5 [⟨str "A", str "1", none, []⟩, ⟨str "A", str "2", none, []⟩,
       ⟨str "B", str "3", none, []⟩]).length ≤ 5 :=
  (C5_dedup_cap.1 5 [⟨str "A", str "1", none, []⟩, ⟨str "A", str "2", none, []⟩,
       ⟨str "B", str "3", none, []⟩]).1

/-- **C10 witness** — totality at a concrete failing retriever: the error
comes back as a prefixed string. -/
theorem C10_ask_total_witness :
    (∃ s, askBody ⟨fun _ => .error (str "down"), fun _ _ => .ok (str "answer"),
        fun _ _ => 0, 70⟩ (str "q") none = .ok s ∧
      ask_assistant ⟨fun _ => .error (str "down"), fun _ _ => .ok (str "answer"),
        fun _ _ => 0, 70⟩ (str "q") none = s) ∨
    (∃ e, askBody ⟨fun _ => .error (str "down"), fun _ _ => .ok (str "answer"),
        fun _ _ => 0, 70⟩ (str "q") none = .error e ∧
      ask_assistant ⟨fun _ => .error (str "down"), fun _ _ => .ok (str "answer"),
        fun _ _ => 0, 70⟩ (str "q") none = errPrefix ++ e) :=
  C10_ask_total ⟨fun _ => .error (str "down"), fun _ _ => .ok (str "answer"),
    fun _ _ => 0, 70⟩ (str "q") none
